import Mathlib

/-!
Shallow embedding of the data-loading and query layer of `src/app.py`
(a pandas-based house-price dashboard script).

Modelling conventions:
* A data-frame row after cleaning is `Row`; the raw CSV before cleaning is
  `RawCsv` (rows `RawRow` plus table-level column information: whether the
  `Average_Price_SA` column is present, and the names of the remaining
  numeric columns).
* Dates are represented as `Nat` in the order-preserving encoding
  `y*10000 + m*100 + d`; `pd.to_datetime` applied to one string is modelled
  by `parseDate` (ISO `yyyy-mm-dd`), returning `none` where pandas raises a
  parse error.
* The filesystem seen by `pd.read_csv` is a function `String → FileContent`:
  a path is missing (pandas raises `FileNotFoundError`), unreadable (pandas
  raises `PermissionError`, an `OSError` that is *not* a
  `FileNotFoundError`), or holds a CSV.
* Python exceptions become `Except LoadError`; `pd.NaT` (which
  `Series.max` returns on an empty series) becomes `DateValue.NaT`.
* Numeric cell values are `Int`; the statistics produced by `describe()`
  are floating point and only their column structure is modelled, which is
  all the specification's claims reference.
-/

namespace HouseApp

/-- One row of the raw CSV file: the unparsed `Date` string, the
`Region_Name` string, the `Average_Price` value, the `Average_Price_SA`
value (meaningful only when the table-level flag `RawCsv.hasSA` is set),
and the values of the remaining numeric columns. -/
structure RawRow where
  dateStr : String
  regionName : String
  averagePrice : Int
  sa : Int
  others : List Int
  deriving DecidableEq

/-- A raw CSV file: names of the numeric columns other than `Date`,
`Region_Name`, `Average_Price`, `Average_Price_SA`; whether the
`Average_Price_SA` column is present; and the data rows. -/
structure RawCsv where
  otherNames : List String
  hasSA : Bool
  rows : List RawRow
  deriving DecidableEq

/-- One row of the cleaned in-memory table (`df_cleaned` in `src/app.py`):
the parsed `Date`, `Region_Name`, `Average_Price`, and the other numeric
columns.  The `Average_Price_SA` column has been dropped, so `Row` has no
field for it. -/
structure Row where
  date : Nat
  regionName : String
  averagePrice : Int
  others : List Int
  deriving DecidableEq

/-- The cleaned table: the other-column names and the rows. -/
structure Table where
  otherNames : List String
  rows : List Row
  deriving DecidableEq

/-- Number of days of month `m` (`leap` true in a leap year). -/
def monthLength (leap : Bool) (m : Nat) : Nat :=
  if m = 2 then (if leap then 29 else 28)
  else if m = 4 ∨ m = 6 ∨ m = 9 ∨ m = 11 then 30
  else 31

/-- Gregorian leap-year test. -/
def isLeap (y : Nat) : Bool :=
  y % 4 == 0 && (y % 100 != 0 || y % 400 == 0)

/-- Split a character list at every dash, the field separator of an ISO
date string. -/
def splitDash : List Char → List (List Char)
  | [] => [[]]
  | c :: cs =>
    if c = '-' then [] :: splitDash cs
    else
      match splitDash cs with
      | [] => [[c]]
      | g :: gs => (c :: g) :: gs

/-- Parse a nonempty all-digit character list as a decimal number. -/
def digitsToNatAux : List Char → Nat → Option Nat
  | [], acc => some acc
  | c :: cs, acc =>
    if '0' ≤ c ∧ c ≤ '9' then digitsToNatAux cs (acc * 10 + (c.toNat - 48))
    else none

/-- Parse a nonempty all-digit character list as a decimal number;
`none` on an empty or non-numeric field. -/
def digitsToNat? : List Char → Option Nat
  | [] => none
  | cs => digitsToNatAux cs 0

/-- Model of `pd.to_datetime` on a single cell: parse an ISO
`yyyy-mm-dd` string into the order-preserving encoding
`y*10000 + m*100 + d`; `none` models the exception pandas raises on a
malformed date. -/
def parseDate (s : String) : Option Nat :=
  match splitDash s.toList with
  | [ys, ms, ds] =>
    match digitsToNat? ys, digitsToNat? ms, digitsToNat? ds with
    | some y, some m, some d =>
      if 1 ≤ m ∧ m ≤ 12 ∧ 1 ≤ d ∧ d ≤ monthLength (isLeap y) m then
        some (y * 10000 + m * 100 + d)
      else none
    | _, _, _ => none
  | _ => none

/-- Errors of the load path, mirroring the Python exceptions:
`FileNotFoundError` from `pd.read_csv` on a missing file, `PermissionError`
on an unreadable file, the parse error raised by `pd.to_datetime` on a
malformed date, and the `KeyError` raised by
`df.drop(columns=[...])` (default `errors=raise`) when the column to drop
is absent. -/
inductive LoadError where
  | fileNotFound
  | permissionDenied
  | parseErr
  | keyError
  deriving DecidableEq

/-- What the filesystem holds at a path: nothing, an unreadable file, or a
CSV file. -/
inductive FileContent where
  | missing
  | unreadable
  | content (csv : RawCsv)

/-- Model of `pd.read_csv(csv_path)`: `FileNotFoundError` when the path
does not exist, `PermissionError` when the file exists but cannot be read,
otherwise the parsed CSV. -/
def read_csv (fs : String → FileContent) (path : String) : Except LoadError RawCsv :=
  match fs path with
  | .missing => .error .fileNotFound
  | .unreadable => .error .permissionDenied
  | .content csv => .ok csv

/-- Model of `df[\x27Date\x27] = pd.to_datetime(df[\x27Date\x27])` applied
row-wise: every date string must parse, otherwise the whole conversion
raises.  The `Average_Price_SA` value is not carried over; whether dropping
that column succeeds is decided separately at table level. -/
def parseRows : List RawRow → Option (List Row)
  | [] => some []
  | r :: rs =>
    match parseDate r.dateStr, parseRows rs with
    | some d, some rest =>
      some ({ date := d, regionName := r.regionName,
              averagePrice := r.averagePrice, others := r.others } :: rest)
    | _, _ => none

/-- Embedding of `load_data` (src/app.py lines 16-24): read the CSV, parse
the `Date` column (`pd.to_datetime` raises on a malformed date), then
`df.drop(columns=[\x27Average_Price_SA\x27])`, which with pandas' default
`errors=raise` raises a `KeyError` when the column is absent. -/
def load_data (fs : String → FileContent) (csv_path : String) : Except LoadError Table :=
  match read_csv fs csv_path with
  | .error e => .error e
  | .ok csv =>
    match parseRows csv.rows with
    | none => .error .parseErr
    | some rows =>
      if csv.hasSA then .ok { otherNames := csv.otherNames, rows := rows }
      else .error .keyError

/-- The fixed CSV path of src/app.py line 29. -/
def sourceCsvPath : String := "Average-prices-2025-06.csv"

/-- The `st.error` text of src/app.py line 31 (quotation marks elided). -/
def missingFileMessage : String :=
  "Error: Average-prices-2025-06.csv not found. Make sure it is in the same folder as app.py."

/-- Outcome of the module-level load block (src/app.py lines 28-32):
`halted` models `st.error` followed by `st.stop()` (a user-visible message
and a graceful halt), `running` models the script continuing with the
loaded table, and `crashed` models an exception that the
`except FileNotFoundError` clause does not catch, so it propagates out of
the script uncaught. -/
inductive AppInit where
  | halted (msg : String)
  | running (t : Table)
  | crashed (e : LoadError)
  deriving DecidableEq

/-- Embedding of the `try/except FileNotFoundError` block around
`load_data` (src/app.py lines 28-32). -/
def appInit (fs : String → FileContent) : AppInit :=
  match load_data fs sourceCsvPath with
  | .ok t => .running t
  | .error .fileNotFound => .halted missingFileMessage
  | .error e => .crashed e

/-- Embedding of `df_region = df_cleaned[df_cleaned[\x27Region_Name\x27] == selected_region]`
(src/app.py line 69); this is the spec operation `filterByRegion`. -/
def df_region (t : Table) (selected_region : String) : List Row :=
  t.rows.filter (fun row => row.regionName == selected_region)

/-- First-occurrence deduplication, the order `pandas.Series.unique`
documents (values in order of appearance). -/
def uniqueFirst {α : Type} [DecidableEq α] : List α → List α
  | [] => []
  | a :: as => a :: uniqueFirst (as.filter (fun b => b ≠ a))
termination_by l => l.length
decreasing_by
  exact Nat.lt_succ_of_le (List.length_filter_le _ _)

/-- Embedding of `all_regions = df_cleaned[\x27Region_Name\x27].unique()`
(src/app.py line 59); this is the spec operation `uniqueRegions`. -/
def all_regions (t : Table) : List String :=
  uniqueFirst (t.rows.map (fun row => row.regionName))

/-- A value of the `Date` column as `Series.max` can produce it: a real
date, or the missing-value sentinel `pd.NaT`. -/
inductive DateValue where
  | NaT
  | val (d : Nat)
  deriving DecidableEq

/-- Model of `Series.max` on the (NaT-free, post-load) `Date` column:
the maximum of the values, and `pd.NaT` on an empty series (pandas does
not raise on an empty series). -/
def seriesMax : List Nat → DateValue
  | [] => .NaT
  | d :: ds => .val (ds.foldl max d)

/-- Embedding of `latest_date = df_cleaned[\x27Date\x27].max()`
(src/app.py line 93); this is the spec operation `latestDate`. -/
def latest_date (t : Table) : DateValue :=
  seriesMax (t.rows.map (fun row => row.date))

/-- Embedding of `df_latest = df_cleaned[df_cleaned[\x27Date\x27] == latest_date]`
(src/app.py line 98) with the compared date generalised to a parameter, as
in the spec operation `rowsAtDate`; the source instantiates `d` with
`latest_date`. -/
def df_latest (t : Table) (d : Nat) : List Row :=
  t.rows.filter (fun row => row.date == d)

/-- Ascending insertion by an integer key: `a` is placed before the
first element whose key is `≥ key a`. -/
def ins {α : Type} (key : α → Int) (a : α) : List α → List α
  | [] => [a]
  | b :: bs => if key a ≤ key b then a :: b :: bs else b :: ins key a bs

/-- Ascending insertion sort by an integer key, the executable ascending
`argsort` used inside `sort_values_desc`. -/
def isort {α : Type} (key : α → Int) : List α → List α
  | [] => []
  | a :: as => ins key a (isort key as)

/-- Model of `DataFrame.sort_values(by=k, ascending=False)` on one column.
pandas (`nargsort` in `pandas/core/sorting.py`) implements a descending
sort by reversing the values, taking an ascending `argsort`, and reversing
the resulting indexer; as a list transformation that is
`reverse (ascending-sort (reverse l))`.  Line 101 passes no `kind`, so
numpy's default introsort runs, and numpy documents its order among equal
keys as not stable, i.e. unspecified; an executable embedding must fix
one admissible refinement, and this one uses an insertion sort.  No
theorem in this file depends on the order among equal keys that this
choice induces. -/
def sort_values_desc {α : Type} (key : α → Int) (l : List α) : List α :=
  (isort key l.reverse).reverse

/-- The sort key of src/app.py line 101: the `Average_Price` column. -/
def priceKey : Row → Int := fun r => r.averagePrice

/-- Embedding of
`df_top_10 = df_latest.sort_values(by=\x27Average_Price\x27, ascending=False).head(10)`
(src/app.py line 101), with `10` generalised to `n` as in the spec
operation `topNByPrice`. -/
def topNByPrice (l : List Row) (n : Nat) : List Row :=
  (sort_values_desc priceKey l).take n

/-- Embedding of `df_cleaned.describe()` (src/app.py line 52) at column
granularity: `describe` reports the numeric columns of the cleaned table,
namely `Average_Price` and the other numeric columns; the datetime `Date`
column and the object `Region_Name` column are excluded.  This is the spec
operation `summaryStatistics`. -/
def describeColumns (t : Table) : List String :=
  "Average_Price" :: t.otherNames

/-- The query operations the script runs over the loaded table
(src/app.py lines 69, 98, 101, 59, 93, 52), one constructor each. -/
inductive Query where
  | filterRegion (r : String)
  | rowsAt (d : Nat)
  | topN (n : Nat)
  | regionList
  | latestDateQ
  | describeQ

/-- The value a query renders. -/
inductive Answer where
  | rows (l : List Row)
  | strs (l : List String)
  | dval (d : DateValue)

/-- One query step over the table `df_cleaned`: the answer the script
computes and the table the variable `df_cleaned` holds afterwards.  Each
pandas operation used by the script (boolean-mask selection,
`sort_values`, `unique`, `max`, `describe`) returns a fresh object and
never mutates its input, and the script never rebinds `df_cleaned` after
the load (src/app.py lines 69-101), so each step leaves the table as it
was. -/
def runQuery (t : Table) : Query → Answer × Table
  | .filterRegion r => (.rows (df_region t r), t)
  | .rowsAt d => (.rows (df_latest t d), t)
  | .topN n => (.rows (topNByPrice t.rows n), t)
  | .regionList => (.strs (all_regions t), t)
  | .latestDateQ => (.dval (latest_date t), t)
  | .describeQ => (.strs (describeColumns t), t)

/-- The table `df_cleaned` holds after a sequence of query steps. -/
def runSession (t : Table) (qs : List Query) : Table :=
  qs.foldl (fun cur q => (runQuery cur q).2) t

/-! Concrete data for witnesses and counterexamples, following the
scenario of the spec: rows (2024-01-01, London, 500000),
(2024-01-01, York, 300000), (2024-02-01, London, 510000). -/

/-- Scenario row 1. -/
def rowA : Row :=
  { date := 20240101, regionName := "London", averagePrice := 500000, others := [] }

/-- Scenario row 2. -/
def rowB : Row :=
  { date := 20240101, regionName := "York", averagePrice := 300000, others := [] }

/-- Scenario row 3. -/
def rowC : Row :=
  { date := 20240201, regionName := "London", averagePrice := 510000, others := [] }

/-- The scenario table. -/
def exampleTable : Table := { otherNames := [], rows := [rowA, rowB, rowC] }

/-- A table with zero rows. -/
def emptyTable : Table := { otherNames := [], rows := [] }

/-- A raw CSV row with a well-formed date. -/
def goodRawRow : RawRow :=
  { dateStr := "2024-01-01", regionName := "London", averagePrice := 500000,
    sa := 499000, others := [7] }

/-- A raw CSV row whose date string does not parse. -/
def badRawRow : RawRow :=
  { dateStr := "not-a-date", regionName := "London", averagePrice := 500000,
    sa := 499000, others := [7] }

/-- A CSV that has the `Average_Price_SA` column and well-formed dates. -/
def goodCsv : RawCsv :=
  { otherNames := ["Monthly_Change"], hasSA := true, rows := [goodRawRow] }

/-- A CSV that lacks the `Average_Price_SA` column but has well-formed
dates. -/
def noSACsv : RawCsv :=
  { otherNames := ["Monthly_Change"], hasSA := false, rows := [goodRawRow] }

/-- A CSV with the `Average_Price_SA` column but a malformed date. -/
def badDateCsv : RawCsv :=
  { otherNames := ["Monthly_Change"], hasSA := true, rows := [badRawRow] }

/-- The table that loading `goodCsv` produces. -/
def goodTable : Table :=
  { otherNames := ["Monthly_Change"],
    rows := [{ date := 20240101, regionName := "London",
               averagePrice := 500000, others := [7] }] }

/-- A filesystem holding a given CSV at every path. -/
def constFs (csv : RawCsv) : String → FileContent := fun _ => .content csv

/-- A filesystem with no files. -/
def emptyFs : String → FileContent := fun _ => .missing

/-- A filesystem whose files exist but cannot be read. -/
def unreadableFs : String → FileContent := fun _ => .unreadable

/-! ### Helper lemmas -/

theorem parseRows_eq_none {l : List RawRow} :
    parseRows l = none ↔ ∃ r ∈ l, parseDate r.dateStr = none := by
  induction l with
  | nil => simp [parseRows]
  | cons r rs ih =>
    cases h : parseDate r.dateStr with
    | none =>
      simp only [parseRows, h]
      exact iff_of_true trivial ⟨r, List.mem_cons_self r rs, h⟩
    | some d =>
      cases h2 : parseRows rs with
      | none =>
        simp only [parseRows, h, h2]
        refine iff_of_true trivial ?_
        obtain ⟨x, hx, hnone⟩ := ih.mp h2
        exact ⟨x, List.mem_cons_of_mem _ hx, hnone⟩
      | some rest =>
        simp only [parseRows, h, h2]
        constructor
        · intro hc; exact absurd hc (by simp)
        · rintro ⟨x, hx, hnone⟩
          rcases List.mem_cons.mp hx with rfl | hx2
          · rw [h] at hnone; exact absurd hnone (by simp)
          · have hn : parseRows rs = none := ih.mpr ⟨x, hx2, hnone⟩
            rw [h2] at hn; exact absurd hn (by simp)

theorem parseRows_forall₂ {l : List RawRow} {rows : List Row}
    (h : parseRows l = some rows) :
    List.Forall₂ (fun (raw : RawRow) (row : Row) =>
      parseDate raw.dateStr = some row.date ∧ row.regionName = raw.regionName ∧
      row.averagePrice = raw.averagePrice ∧ row.others = raw.others) l rows := by
  induction l generalizing rows with
  | nil =>
    simp only [parseRows, Option.some.injEq] at h
    rw [← h]; exact List.Forall₂.nil
  | cons r rs ih =>
    cases hd : parseDate r.dateStr with
    | none => rw [parseRows, hd] at h; exact absurd h (by simp)
    | some d =>
      cases ht : parseRows rs with
      | none => rw [parseRows, hd, ht] at h; exact absurd h (by simp)
      | some rest =>
        rw [parseRows, hd, ht, Option.some.injEq] at h
        rw [← h]
        exact List.Forall₂.cons ⟨hd, rfl, rfl, rfl⟩ (ih ht)

theorem le_foldl_max (d : Nat) (ds : List Nat) : d ≤ ds.foldl max d := by
  induction ds generalizing d with
  | nil => exact le_refl d
  | cons x xs ih => exact le_trans (le_max_left d x) (ih (max d x))

theorem foldl_max_mem (d : Nat) (ds : List Nat) : ds.foldl max d ∈ d :: ds := by
  induction ds generalizing d with
  | nil => simp
  | cons x xs ih =>
    simp only [List.foldl_cons]
    rcases List.mem_cons.mp (ih (max d x)) with h | h
    · rcases max_choice d x with h2 | h2
      · rw [h, h2]; exact List.mem_cons_self _ _
      · rw [h, h2]; exact List.mem_cons_of_mem _ (List.mem_cons_self _ _)
    · exact List.mem_cons_of_mem _ (List.mem_cons_of_mem _ h)

theorem foldl_max_ge (d : Nat) (ds : List Nat) :
    ∀ x ∈ d :: ds, x ≤ ds.foldl max d := by
  induction ds generalizing d with
  | nil =>
    intro x hx
    rcases List.mem_cons.mp hx with rfl | h
    · exact le_refl x
    · exact absurd h (List.not_mem_nil x)
  | cons y ys ih =>
    intro x hx
    simp only [List.foldl_cons]
    rcases List.mem_cons.mp hx with rfl | h
    · exact le_trans (le_max_left x y) (ih (max x y) _ (List.mem_cons_self _ _))
    · rcases List.mem_cons.mp h with rfl | h2
      · exact le_trans (le_max_right d x) (ih (max d x) _ (List.mem_cons_self _ _))
      · exact ih (max d y) x (List.mem_cons_of_mem _ h2)

theorem uniqueFirst_nil {α : Type} [DecidableEq α] :
    uniqueFirst ([] : List α) = [] := by
  simp [uniqueFirst]

theorem uniqueFirst_cons {α : Type} [DecidableEq α] (a : α) (as : List α) :
    uniqueFirst (a :: as) = a :: uniqueFirst (as.filter (fun b => b ≠ a)) := by
  rw [uniqueFirst]

theorem mem_uniqueFirst {α : Type} [DecidableEq α] (a : α) (l : List α) :
    a ∈ uniqueFirst l ↔ a ∈ l := by
  induction l using uniqueFirst.induct with
  | case1 => simp [uniqueFirst_nil]
  | case2 b bs ih =>
    rw [uniqueFirst_cons]
    constructor
    · intro h
      rcases List.mem_cons.mp h with h | h
      · exact h ▸ List.mem_cons_self _ _
      · exact List.mem_cons_of_mem _ (List.mem_of_mem_filter (ih.mp h))
    · intro h
      rcases List.mem_cons.mp h with h | h
      · exact h ▸ List.mem_cons_self _ _
      · by_cases hab : a = b
        · exact hab ▸ List.mem_cons_self _ _
        · exact List.mem_cons_of_mem _
            (ih.mpr (List.mem_filter.mpr ⟨h, by simp [hab]⟩))

theorem nodup_uniqueFirst {α : Type} [DecidableEq α] (l : List α) :
    (uniqueFirst l).Nodup := by
  induction l using uniqueFirst.induct with
  | case1 => simp [uniqueFirst_nil]
  | case2 b bs ih =>
    rw [uniqueFirst_cons]
    refine List.nodup_cons.mpr ⟨?_, ih⟩
    intro hmem
    have h2 := (List.mem_filter.mp ((mem_uniqueFirst _ _).mp hmem)).2
    simp at h2

theorem uniqueFirst_sublist {α : Type} [DecidableEq α] (l : List α) :
    (uniqueFirst l).Sublist l := by
  induction l using uniqueFirst.induct with
  | case1 => simp [uniqueFirst_nil]
  | case2 b bs ih =>
    rw [uniqueFirst_cons]
    exact List.Sublist.cons₂ b (ih.trans (List.filter_sublist bs))

theorem indexOf_filter_lt {α : Type} [DecidableEq α] (p : α → Bool) :
    ∀ (l : List α) (x y : α), x ∈ l.filter p → y ∈ l.filter p →
      (l.filter p).indexOf x < (l.filter p).indexOf y →
      l.indexOf x < l.indexOf y := by
  intro l
  induction l with
  | nil => intro x y hx _ _; exact absurd hx (by simp)
  | cons a tl ih =>
    intro x y hx hy hlt
    by_cases hp : p a
    · rw [List.filter_cons_of_pos hp] at hx hy hlt
      by_cases hxa : x = a
      · subst hxa
        have hxy : x ≠ y := by
          intro he; rw [he] at hlt; exact Nat.lt_irrefl _ hlt
        rw [List.indexOf_cons_self, List.indexOf_cons_ne _ hxy]
        exact Nat.succ_pos _
      · by_cases hya : y = a
        · subst hya
          rw [List.indexOf_cons_self] at hlt
          exact absurd hlt (Nat.not_lt_zero _)
        · rw [List.indexOf_cons_ne _ (Ne.symm hxa),
            List.indexOf_cons_ne _ (Ne.symm hya)] at hlt
          rw [List.indexOf_cons_ne _ (Ne.symm hxa),
            List.indexOf_cons_ne _ (Ne.symm hya)]
          have hx2 : x ∈ tl.filter p := by
            rcases List.mem_cons.mp hx with h | h
            · exact absurd h hxa
            · exact h
          have hy2 : y ∈ tl.filter p := by
            rcases List.mem_cons.mp hy with h | h
            · exact absurd h hya
            · exact h
          exact Nat.succ_lt_succ (ih x y hx2 hy2 (Nat.lt_of_succ_lt_succ hlt))
    · rw [List.filter_cons_of_neg hp] at hx hy hlt
      have hxa : x ≠ a := by
        rintro rfl; exact hp ((List.mem_filter.mp hx).2)
      have hya : y ≠ a := by
        rintro rfl; exact hp ((List.mem_filter.mp hy).2)
      rw [List.indexOf_cons_ne _ (Ne.symm hxa), List.indexOf_cons_ne _ (Ne.symm hya)]
      exact Nat.succ_lt_succ (ih x y hx hy hlt)

theorem pairwise_indexOf_uniqueFirst {α : Type} [DecidableEq α] (l : List α) :
    (uniqueFirst l).Pairwise (fun a b => l.indexOf a < l.indexOf b) := by
  induction l using uniqueFirst.induct with
  | case1 => simp [uniqueFirst_nil]
  | case2 b bs ih =>
    rw [uniqueFirst_cons]
    refine List.Pairwise.cons ?_ ?_
    · intro y hy
      have hyf := (mem_uniqueFirst _ _).mp hy
      have hyb : y ≠ b := by
        have := (List.mem_filter.mp hyf).2
        simpa using this
      rw [List.indexOf_cons_self, List.indexOf_cons_ne _ (Ne.symm hyb)]
      exact Nat.succ_pos _
    · refine List.Pairwise.imp_of_mem ?_ ih
      intro a c ha hc hlt
      have ha2 := (mem_uniqueFirst _ _).mp ha
      have hc2 := (mem_uniqueFirst _ _).mp hc
      have hab : a ≠ b := by
        have := (List.mem_filter.mp ha2).2
        simpa using this
      have hcb : c ≠ b := by
        have := (List.mem_filter.mp hc2).2
        simpa using this
      rw [List.indexOf_cons_ne _ (Ne.symm hab), List.indexOf_cons_ne _ (Ne.symm hcb)]
      exact Nat.succ_lt_succ (indexOf_filter_lt _ bs a c ha2 hc2 hlt)

theorem decide_ne_beq (a b : Nat) : (decide (a ≠ b)) = !(a == b) := by
  by_cases h : a = b <;> simp [h]

theorem filter_map_date (p : Nat → Bool) (l : List Row) :
    (l.map (fun row => row.date)).filter p =
      (l.filter (fun row => p row.date)).map (fun row => row.date) := by
  induction l with
  | nil => rfl
  | cons r rs ih =>
    by_cases hp : p r.date
    · simp [hp, ih]
    · simp [hp, ih]

theorem filter_date_filter_ne (l : List Row) (k d : Nat) (hne : d ≠ k) :
    (l.filter (fun row => row.date ≠ k)).filter (fun row => row.date == d) =
      l.filter (fun row => row.date == d) := by
  induction l with
  | nil => rfl
  | cons r rs ih =>
    simp only [decide_not] at ih
    by_cases h2 : r.date = k
    · have hd : (r.date == d) = false := by
        simp only [beq_eq_false_iff_ne]
        rw [h2]
        exact fun he => hne he.symm
      simp [List.filter_cons, h2, hd, ih, Ne.symm hne]
    · by_cases h1 : r.date = d
      · have hd : (r.date == d) = true := by simp [h1]
        simp [List.filter_cons, h2, hd, ih]
      · have hd : (r.date == d) = false := by simp [h1]
        simp [List.filter_cons, h2, hd, ih]

theorem partition_by_date_aux :
    ∀ (n : Nat) (rows : List Row), rows.length ≤ n →
      ((uniqueFirst (rows.map (fun row => row.date))).map
        (fun d => rows.filter (fun row => row.date == d))).flatten.Perm rows := by
  intro n
  induction n with
  | zero =>
    intro rows h
    have hnil : rows = [] := List.eq_nil_of_length_eq_zero (Nat.le_zero.mp h)
    subst hnil
    simp [uniqueFirst_nil]
  | succ n ih =>
    intro rows hlen
    cases rows with
    | nil => simp [uniqueFirst_nil]
    | cons r rs =>
      rw [List.map_cons, uniqueFirst_cons]
      simp only [filter_map_date]
      rw [List.map_cons, List.flatten_cons]
      have hhead : (r :: rs).filter (fun row => row.date == r.date) =
          r :: rs.filter (fun row => row.date == r.date) := by
        simp [List.filter_cons]
      have hmapeq :
          (uniqueFirst ((rs.filter (fun row => row.date ≠ r.date)).map
              (fun row => row.date))).map
            (fun d => (r :: rs).filter (fun row => row.date == d)) =
          (uniqueFirst ((rs.filter (fun row => row.date ≠ r.date)).map
              (fun row => row.date))).map
            (fun d => (rs.filter (fun row => row.date ≠ r.date)).filter
              (fun row => row.date == d)) := by
        refine List.map_congr_left ?_
        intro d hd
        obtain ⟨row, hrow, heq⟩ :=
          List.mem_map.mp ((mem_uniqueFirst d _).mp hd)
        have hd2 : d ≠ r.date := by
          rw [← heq]
          have := (List.mem_filter.mp hrow).2
          simpa using this
        have hrd : (r.date == d) = false := by
          simp only [beq_eq_false_iff_ne]
          exact Ne.symm hd2
        rw [show (r :: rs).filter (fun row => row.date == d) =
            rs.filter (fun row => row.date == d) by simp [List.filter_cons, hrd]]
        exact (filter_date_filter_ne rs r.date d hd2).symm
      rw [hhead, hmapeq]
      have hsub : rs.length ≤ n := Nat.le_of_succ_le_succ hlen
      have h1 := ih (rs.filter (fun row => row.date ≠ r.date))
        (le_trans (List.length_filter_le _ _) hsub)
      have h2 : ((rs.filter (fun row => row.date == r.date)) ++
            ((uniqueFirst ((rs.filter (fun row => row.date ≠ r.date)).map
              (fun row => row.date))).map
              (fun d => (rs.filter (fun row => row.date ≠ r.date)).filter
                (fun row => row.date == d))).flatten).Perm
          ((rs.filter (fun row => row.date == r.date)) ++
            rs.filter (fun row => row.date ≠ r.date)) :=
        List.Perm.append_left _ h1
      have hcomp : rs.filter (fun row => row.date ≠ r.date) =
          rs.filter (fun row => !(row.date == r.date)) :=
        List.filter_congr (fun x _ => decide_ne_beq x.date r.date)
      have h3 : ((rs.filter (fun row => row.date == r.date)) ++
            rs.filter (fun row => row.date ≠ r.date)).Perm rs := by
        rw [hcomp]
        exact List.filter_append_perm _ rs
      exact List.Perm.cons r (h2.trans h3)

/-! ### Claim theorems -/

/-- C4 (confirmed): `filterByRegion` (`df_region`, src/app.py line 69)
returns exactly the rows whose `Region_Name` equals the given string under
exact case-sensitive equality — membership-wise and with multiplicity —
preserves the original row order (the result is a sublist of the table),
and returns the empty list rather than an error when no row matches. -/
theorem filterByRegion_correct (t : Table) (regionName : String) :
    (∀ row : Row, row ∈ df_region t regionName ↔
      row ∈ t.rows ∧ row.regionName = regionName) ∧
    (∀ row : Row, (df_region t regionName).count row =
      if row.regionName = regionName then t.rows.count row else 0) ∧
    (df_region t regionName).Sublist t.rows ∧
    ((∀ row ∈ t.rows, row.regionName ≠ regionName) →
      df_region t regionName = []) := by
  refine ⟨?_, ?_, List.filter_sublist t.rows, ?_⟩
  · intro row
    simp [df_region, List.mem_filter]
  · intro row
    by_cases h : row.regionName = regionName
    · rw [if_pos h]
      exact List.count_filter (by simp [h])
    · rw [if_neg h]
      refine List.count_eq_zero.mpr ?_
      intro hmem
      simp only [df_region, List.mem_filter, beq_iff_eq] at hmem
      exact h hmem.2
  · intro hall
    refine List.filter_eq_nil_iff.mpr ?_
    intro row hrow
    simp [hall row hrow]

/-- C4 witness: filtering the scenario table by a region name that occurs
nowhere yields the empty list. -/
theorem filterByRegion_correct_witness :
    df_region exampleTable "Nonexistent" = [] :=
  (filterByRegion_correct exampleTable "Nonexistent").2.2.2 (by decide)

/-- C3 counterexample: on the empty table, `latest_date`
(src/app.py line 93) does not fail with an `EmptyTableError` — pandas
`Series.max` on an empty series returns the missing-value sentinel
`pd.NaT`, so the embedded (total) function returns the value
`DateValue.NaT` rather than raising anything. -/
theorem latest_date_empty_counterexample :
    latest_date emptyTable = DateValue.NaT := rfl

/-- C3 (amended): for every non-empty table, `latest_date` equals the
maximum of all `Date` values present; for the empty table it returns the
`NaT` sentinel value instead of failing with an `EmptyTableError`. -/
theorem latest_date_correct (t : Table) :
    (t.rows ≠ [] → ∃ m, latest_date t = DateValue.val m ∧
      m ∈ t.rows.map (fun row => row.date) ∧
      ∀ d ∈ t.rows.map (fun row => row.date), d ≤ m) ∧
    (t.rows = [] → latest_date t = DateValue.NaT) := by
  constructor
  · intro hne
    cases hrows : t.rows with
    | nil => exact absurd hrows hne
    | cons r rs =>
      refine ⟨(rs.map (fun row => row.date)).foldl max r.date, ?_, ?_, ?_⟩
      · simp [latest_date, seriesMax, hrows]
      · simpa using foldl_max_mem r.date (rs.map (fun row => row.date))
      · simpa using foldl_max_ge r.date (rs.map (fun row => row.date))
  · intro he
    simp [latest_date, he, seriesMax]

/-- C3 witness: on the scenario table the maximum date 2024-02-01 is
returned. -/
theorem latest_date_correct_witness :
    latest_date exampleTable = DateValue.val 20240201 := by
  obtain ⟨m, hm, hmem, hub⟩ := (latest_date_correct exampleTable).1 (by decide)
  have h2 : 20240201 ≤ m := hub 20240201 (by decide)
  have h3 : m = 20240101 ∨ m = 20240101 ∨ m = 20240201 := by
    simpa [exampleTable, rowA, rowB, rowC] using hmem
  rcases h3 with rfl | rfl | rfl
  · exact absurd h2 (by decide)
  · exact absurd h2 (by decide)
  · exact hm

/-- C8 (confirmed): when the CSV at the path contains a row whose date
string does not parse, `load_data` fails with the parse error raised by
`pd.to_datetime` (src/app.py line 21) and returns no table. -/
theorem load_malformed_date_fails (fs : String → FileContent) (path : String)
    (csv : RawCsv) (h : fs path = .content csv)
    (hbad : ∃ r ∈ csv.rows, parseDate r.dateStr = none) :
    load_data fs path = .error .parseErr := by
  have hp : parseRows csv.rows = none := parseRows_eq_none.mpr hbad
  simp [load_data, read_csv, h, hp]

/-- C8 witness: a CSV whose single row carries the date string
`not-a-date` makes the load fail with the parse error. -/
theorem load_malformed_date_fails_witness :
    load_data (constFs badDateCsv) sourceCsvPath = .error .parseErr :=
  load_malformed_date_fails (constFs badDateCsv) sourceCsvPath badDateCsv rfl
    ⟨badRawRow, List.mem_cons_self _ _, rfl⟩

/-- C10 (confirmed): a successful load preserves the raw CSV exactly, row
for row and in order — no row is filtered, deduplicated or reordered, the
row count is preserved, the other column names are kept, and every field
other than the dropped `Average_Price_SA` and the re-parsed `Date` is
carried over unchanged (the `Date` of each output row is exactly the
parse of that row's date string). -/
theorem load_preserves_rows (fs : String → FileContent) (path : String)
    (csv : RawCsv) (t : Table) (h : fs path = .content csv)
    (hok : load_data fs path = .ok t) :
    t.otherNames = csv.otherNames ∧ t.rows.length = csv.rows.length ∧
    List.Forall₂ (fun (raw : RawRow) (row : Row) =>
      parseDate raw.dateStr = some row.date ∧ row.regionName = raw.regionName ∧
      row.averagePrice = raw.averagePrice ∧ row.others = raw.others)
      csv.rows t.rows := by
  simp only [load_data, read_csv, h] at hok
  cases hp : parseRows csv.rows with
  | none => simp [hp] at hok
  | some rows =>
    simp only [hp] at hok
    by_cases hsa : csv.hasSA
    · rw [if_pos hsa] at hok
      have hforall := parseRows_forall₂ hp
      have ht : ({ otherNames := csv.otherNames, rows := rows } : Table) = t := by
        simpa using hok
      rw [← ht]
      exact ⟨rfl, (List.Forall₂.length_eq hforall).symm, hforall⟩
    · rw [if_neg hsa] at hok
      exact absurd hok (by simp)

/-- C10 witness: loading the concrete one-row CSV yields exactly the
expected table, with the frame conditions instantiated there. -/
theorem load_preserves_rows_witness :
    goodTable.otherNames = goodCsv.otherNames ∧
    goodTable.rows.length = goodCsv.rows.length ∧
    List.Forall₂ (fun (raw : RawRow) (row : Row) =>
      parseDate raw.dateStr = some row.date ∧ row.regionName = raw.regionName ∧
      row.averagePrice = raw.averagePrice ∧ row.others = raw.others)
      goodCsv.rows goodTable.rows :=
  load_preserves_rows (constFs goodCsv) sourceCsvPath goodCsv goodTable rfl rfl

/-- C2 counterexample: loading a CSV that lacks the `Average_Price_SA`
column does not succeed — `df.drop(columns=[...])` with pandas' default
`errors=raise` (src/app.py line 23) raises a `KeyError`, contradicting
the claim that the column's absence is not an error. -/
theorem load_without_sa_counterexample :
    noSACsv.hasSA = false ∧
    load_data (constFs noSACsv) sourceCsvPath = .error .keyError :=
  ⟨rfl, rfl⟩

/-- C2 (amended): when the `Average_Price_SA` column is present it is
dropped (the loaded table keeps exactly the other column names, and the
column appears in neither `uniqueRegions` — whose values all come from
`Region_Name` cells — nor the `summaryStatistics` column list); when the
column is absent (and the dates parse), `load_data` fails with a
`KeyError` instead of succeeding. -/
theorem drop_sa_correct (fs : String → FileContent) (path : String)
    (csv : RawCsv) (h : fs path = .content csv) :
    (csv.hasSA = false → (∀ r ∈ csv.rows, parseDate r.dateStr ≠ none) →
      load_data fs path = .error .keyError) ∧
    (∀ t : Table, load_data fs path = .ok t →
      t.otherNames = csv.otherNames ∧
      (∀ s ∈ all_regions t, ∃ row ∈ t.rows, s = row.regionName) ∧
      ("Average_Price_SA" ∉ csv.otherNames →
        "Average_Price_SA" ∉ describeColumns t)) := by
  constructor
  · intro hsa hparse
    have hne : parseRows csv.rows ≠ none := by
      intro hn
      obtain ⟨r, hr, hnone⟩ := parseRows_eq_none.mp hn
      exact hparse r hr hnone
    obtain ⟨rows, hrows⟩ := Option.ne_none_iff_exists'.mp hne
    simp [load_data, read_csv, h, hrows, hsa]
  · intro t hok
    simp only [load_data, read_csv, h] at hok
    cases hp : parseRows csv.rows with
    | none => simp [hp] at hok
    | some rows =>
      simp only [hp] at hok
      by_cases hsa : csv.hasSA
      · rw [if_pos hsa] at hok
        have ht : ({ otherNames := csv.otherNames, rows := rows } : Table) = t := by
          simpa using hok
        refine ⟨by rw [← ht], ?_, ?_⟩
        · intro s hs
          have hmem := (mem_uniqueFirst s _).mp hs
          obtain ⟨row, hrow, heq⟩ := List.mem_map.mp hmem
          exact ⟨row, hrow, heq.symm⟩
        · intro hnot hmem
          rcases List.mem_cons.mp hmem with heq | hmem2
          · exact absurd heq (by decide)
          · rw [← ht] at hmem2
            exact hnot hmem2
      · rw [if_neg hsa] at hok
        exact absurd hok (by simp)

/-- C2 witness (for the amended theorem): loading the concrete CSV that
has the column yields a table whose columns are exactly the non-SA ones
and whose statistics columns do not mention `Average_Price_SA`. -/
theorem drop_sa_correct_witness :
    goodTable.otherNames = goodCsv.otherNames ∧
    "Average_Price_SA" ∉ describeColumns goodTable := by
  have h := (drop_sa_correct (constFs goodCsv) sourceCsvPath goodCsv rfl).2
    goodTable rfl
  exact ⟨h.1, h.2.2 (by decide)⟩

/-- C7 counterexample: with an unreadable (but existing) source file,
`pd.read_csv` raises a `PermissionError`; the
`except FileNotFoundError` clause of src/app.py line 30 does not catch it,
so the script aborts with an uncaught exception instead of showing a
user-visible message and halting gracefully — refuting the claim for the
`unreadable` half of its hypothesis. -/
theorem unreadable_crashes_counterexample :
    appInit unreadableFs = AppInit.crashed LoadError.permissionDenied := rfl

/-- C7 (amended): when the source file path does not exist, the
`FileNotFoundError` is caught and surfaced as the user-visible `st.error`
message followed by the graceful `st.stop()` halt; when the file exists
but is unreadable, the resulting `PermissionError` is not caught and the
script aborts uncaught. -/
theorem appInit_missing_file (fs : String → FileContent) :
    (fs sourceCsvPath = .missing → appInit fs = .halted missingFileMessage) ∧
    (fs sourceCsvPath = .unreadable →
      appInit fs = .crashed .permissionDenied) := by
  constructor <;> intro h <;> simp [appInit, load_data, read_csv, h]

/-- C7 witness: on the filesystem with no files the app halts gracefully
with the message. -/
theorem appInit_missing_file_witness :
    appInit emptyFs = AppInit.halted missingFileMessage :=
  (appInit_missing_file emptyFs).1 rfl

/-- C9 (confirmed): the loaded table is immutable — after any sequence of
query operations (filter by region, rows at a date, top-N by price, the
region list, the latest date, the summary statistics), the table the
session holds equals the table produced by the load.  Each pandas
operation the script uses returns a fresh object, and the script never
rebinds `df_cleaned` after load (src/app.py lines 69-101). -/
theorem table_immutable (t : Table) (qs : List Query) : runSession t qs = t := by
  induction qs generalizing t with
  | nil => rfl
  | cons q qs ih =>
    have hstep : (runQuery t q).2 = t := by cases q <;> rfl
    calc runSession t (q :: qs) = runSession (runQuery t q).2 qs := rfl
    _ = runSession t qs := by rw [hstep]
    _ = t := ih t

/-- C5 (confirmed): `uniqueRegions` (`all_regions`, src/app.py line 59)
contains no duplicates, every value it returns appears as the
`Region_Name` of some row, its membership coincides with the
`Region_Name` column, and it lists values in first-occurrence order
(pairwise increasing index of first occurrence in the column).
Determinism across calls on the same table is immediate: `all_regions`
is a pure function of the table. -/
theorem uniqueRegions_correct (t : Table) :
    (all_regions t).Nodup ∧
    (∀ s, s ∈ all_regions t ↔ s ∈ t.rows.map (fun row => row.regionName)) ∧
    (∀ s ∈ all_regions t, ∃ row ∈ t.rows, s = row.regionName) ∧
    (all_regions t).Pairwise (fun a b =>
      (t.rows.map (fun row => row.regionName)).indexOf a <
        (t.rows.map (fun row => row.regionName)).indexOf b) := by
  refine ⟨nodup_uniqueFirst _, ?_, ?_, pairwise_indexOf_uniqueFirst _⟩
  · intro s
    exact mem_uniqueFirst s _
  · intro s hs
    obtain ⟨row, hrow, heq⟩ := List.mem_map.mp ((mem_uniqueFirst s _).mp hs)
    exact ⟨row, hrow, heq.symm⟩

/-- C5 witness: on the scenario table, `London` is listed and the region
list has no duplicates. -/
theorem uniqueRegions_correct_witness :
    "London" ∈ all_regions exampleTable ∧ (all_regions exampleTable).Nodup := by
  have h := uniqueRegions_correct exampleTable
  exact ⟨(h.2.1 "London").mpr (by decide), h.1⟩

/-- C6 (confirmed): `rowsAtDate` (`df_latest`, src/app.py line 98, with
the compared date as a parameter) returns exactly the rows whose `Date`
equals the given date — membership-wise and with multiplicity — in
original order (a sublist), every row of the table lies in exactly one
slice taken at a distinct date of the table, and the concatenation of the
slices over the distinct dates is a permutation of the table (the slices
partition it). -/
theorem rowsAtDate_correct (t : Table) (d : Nat) :
    (∀ row : Row, row ∈ df_latest t d ↔ row ∈ t.rows ∧ row.date = d) ∧
    (∀ row : Row, (df_latest t d).count row =
      if row.date = d then t.rows.count row else 0) ∧
    (df_latest t d).Sublist t.rows ∧
    (∀ row ∈ t.rows, ∃! dd : Nat,
      dd ∈ uniqueFirst (t.rows.map (fun row2 => row2.date)) ∧
        row ∈ df_latest t dd) ∧
    ((uniqueFirst (t.rows.map (fun row2 => row2.date))).map
      (fun dd => df_latest t dd)).flatten.Perm t.rows := by
  refine ⟨?_, ?_, List.filter_sublist _, ?_, ?_⟩
  · intro row
    simp [df_latest, List.mem_filter]
  · intro row
    by_cases h : row.date = d
    · rw [if_pos h]
      exact List.count_filter (by simp [h])
    · rw [if_neg h]
      refine List.count_eq_zero.mpr ?_
      intro hmem
      simp only [df_latest, List.mem_filter, beq_iff_eq] at hmem
      exact h hmem.2
  · intro row hrow
    refine ⟨row.date, ⟨?_, ?_⟩, ?_⟩
    · exact (mem_uniqueFirst _ _).mpr (List.mem_map.mpr ⟨row, hrow, rfl⟩)
    · simp [df_latest, List.mem_filter, hrow]
    · rintro dd ⟨-, hmem⟩
      simp only [df_latest, List.mem_filter, beq_iff_eq] at hmem
      exact hmem.2.symm
  · exact partition_by_date_aux t.rows.length t.rows (le_refl _)

/-- C6 witness: on the scenario table the slices taken at the distinct
dates recombine into a permutation of the table. -/
theorem rowsAtDate_correct_witness :
    ((uniqueFirst (exampleTable.rows.map (fun row2 => row2.date))).map
      (fun dd => df_latest exampleTable dd)).flatten.Perm exampleTable.rows :=
  (rowsAtDate_correct exampleTable 20240101).2.2.2.2

/-- C9 witness: a concrete query sequence leaves the scenario table
unchanged. -/
theorem table_immutable_witness :
    runSession exampleTable
      [Query.latestDateQ, Query.topN 10, Query.filterRegion "London",
        Query.regionList, Query.rowsAt 20240101, Query.describeQ] =
      exampleTable :=
  table_immutable exampleTable
    [Query.latestDateQ, Query.topN 10, Query.filterRegion "London",
      Query.regionList, Query.rowsAt 20240101, Query.describeQ]

end HouseApp
